import Mathlib

/-!
Verification of the NUT (Network UPS Tools) protocol client in `src/nut/nut.rs`
and the polling loop in `src/nut/monitor.rs`.

Strings are modelled as `List Char` (`LC`).  Rust's `&str`/`String` operations
used by the client (`starts_with`, `ends_with`, slicing off the outer quotes,
`str::replace`, `splitn`) are embedded as functions on `List Char`.  The
`HashMap<String, String>` of variables is modelled as an association list with
unique keys; `insert` overwrites the binding of an existing key and `remove`
deletes it.  Fallible protocol operations return `Except NutError`, where
`NutError` enumerates the distinct `io::Error` values the source constructs.
-/

/-- Strings are modelled as lists of characters. -/
abbrev LC := List Char

/-- Convert a Lean string literal to the `List Char` model. -/
def lc (s : String) : LC := s.toList

/-- Lexicographic `≤` on character lists: the order Rust derives for `String`
(byte-lexicographic; on UTF-8 this agrees with codepoint-lexicographic). -/
def lcLe : LC → LC → Bool
  | [], _ => true
  | _ :: _, [] => false
  | a :: as, b :: bs => if a < b then true else if b < a then false else lcLe as bs

/-- The order Rust derives for `(String, String)`: lexicographic on the pair. -/
def pairLe (p q : LC × LC) : Bool :=
  if p.1 = q.1 then lcLe p.2 q.2 else lcLe p.1 q.1

/-- One pass of Rust's `str::replace` with explicit fuel: scan left to right,
replacing each non-overlapping occurrence of `pat` (non-empty in every use in
the source) by `rep`.  The fuel is an upper bound on the number of characters
consumed; `replaceList` supplies the list length, which suffices. -/
def replaceFuel (pat rep : LC) : Nat → LC → LC
  | 0, s => s
  | _ + 1, [] => []
  | fuel + 1, c :: rest =>
    if pat.isPrefixOf (c :: rest) && !pat.isEmpty then
      rep ++ replaceFuel pat rep fuel (rest.drop (pat.length - 1))
    else
      c :: replaceFuel pat rep fuel rest

/-- Rust's `str::replace pat rep` on the `List Char` model (for non-empty `pat`). -/
def replaceList (pat rep s : LC) : LC := replaceFuel pat rep s.length s

/-- `strip_quotes` from `src/nut/nut.rs`: strip leading and trailing double
quotes and unescape, replacing `\"` by `"` first and then `\\` by `\`. -/
def strip_quotes (s : LC) : LC :=
  if 2 ≤ s.length ∧ s.head? = some '"' ∧ s.getLast? = some '"' then
    replaceList ['\\', '\\'] ['\\'] (replaceList ['\\', '"'] ['"'] ((s.drop 1).dropLast))
  else
    s

/-- Modelled from the spec: the body of the NUT value-escaping rule (performed
by the `upsd` server, not by this repository): an embedded `"` becomes `\"`
and an embedded `\` becomes `\\`; every other character is kept. -/
def escBody : LC → LC
  | [] => []
  | c :: rest =>
    if c = '"' then '\\' :: '"' :: escBody rest
    else if c = '\\' then '\\' :: '\\' :: escBody rest
    else c :: escBody rest

/-- Modelled from the spec: the NUT value-escaping rule — wrap the value in
double quotes and escape embedded `"` and `\` with a leading backslash. -/
def escapeValue (s : LC) : LC := '"' :: escBody s ++ ['"']

/-- Proof helper: the intermediate string after the first `replace` pass of
`strip_quotes` on an escaped body — `"` is already decoded, `\` still doubled. -/
def halfDecode : LC → LC
  | [] => []
  | c :: rest =>
    if c = '\\' then '\\' :: '\\' :: halfDecode rest else c :: halfDecode rest


/-- Rust's `s.splitn (sep)` helper: split off the part before the first `sep`,
returning it together with the remainder, or `none` when `sep` does not occur. -/
def splitOnceAt (sep : Char) : LC → Option (LC × LC)
  | [] => none
  | c :: rest =>
    if c = sep then some ([], rest)
    else (splitOnceAt sep rest).map (fun p => (c :: p.1, p.2))

/-- Rust's `str::splitn n sep`: at most `n` parts, splitting at each `sep`;
the last part is the unsplit remainder. -/
def splitnChar : Nat → Char → LC → List LC
  | 0, _, _ => []
  | 1, _, s => [s]
  | n + 2, sep, s =>
    match splitOnceAt sep s with
    | none => [s]
    | some (a, b) => a :: splitnChar (n + 1) sep b


/-- The distinct `io::Error` values constructed by the client in
`src/nut/nut.rs`, one constructor per distinct error site/message. -/
inductive NutError
  /-- `read_line` read zero bytes: `Connection closed by server`. -/
  | connectionClosed
  /-- A first response line without the required `BEGIN LIST …` prefix:
  `Unexpected response: {line}`, carrying the offending raw line. -/
  | protocolViolation (line : LC)
  /-- `Missing UPS name` while splitting a `UPS `/`VAR ` body line. -/
  | missingUpsName
  /-- `Missing UPS desc` while splitting a `UPS ` body line. -/
  | missingUpsDesc
  /-- `Missing var name` while splitting a `VAR ` body line. -/
  | missingVarName
  /-- `Missing var value` while splitting a `VAR ` body line. -/
  | missingVarValue
  /-- `expect_ok` read a line that does not start with `OK`:
  `Expected OK, got: {line}`, carrying the raw line. -/
  | expectedOkGot (line : LC)
deriving DecidableEq

/-- The `HashMap<String, String>` of one `LIST VAR` response, modelled as an
association list with unique keys. -/
abbrev VarMap := List (LC × LC)

/-- `HashMap` lookup: the value bound to `k`, if any. -/
def findVal (k : LC) : VarMap → Option LC
  | [] => none
  | (k', v) :: rest => if k' = k then some v else findVal k rest

/-- `HashMap::remove k` on the association-list model: delete the binding of
`k` (written as a filter; bindings are unique, so at most one is deleted). -/
def removeKey (k : LC) (m : VarMap) : VarMap :=
  m.filter (fun p => !(p.1 == k))

/-- `HashMap::insert k v`: overwrite the binding of `k` if present, else add it. -/
def hmInsert {β : Type} (k : LC) (v : β) : List (LC × β) → List (LC × β)
  | [] => [(k, v)]
  | (k', v') :: rest => if k' = k then (k, v) :: rest else (k', v') :: hmInsert k v rest

/-- `Vec::sort` on the collected `(key, value)` pairs: a stable ascending sort
by the derived lexicographic order on pairs of strings. -/
def sortPairs (l : List (LC × LC)) : List (LC × LC) :=
  List.insertionSort (fun p q => pairLe p q = true) l

/-- `UpsInfo` from `src/nut/nut.rs`: high-level view of a UPS' common values. -/
structure UpsInfo where
  ups_name : LC
  status : Option LC
  model : Option LC
  manufacturer : Option LC
  serial : Option LC
  ups_type : Option LC
  load_percent : Option LC
  realpower_watts : Option LC
  battery_charge_percent : Option LC
  battery_runtime_seconds : Option LC
  battery_voltage : Option LC
  input_voltage : Option LC
  output_voltage : Option LC
  input_frequency_hz : Option LC
  output_frequency_hz : Option LC
  extra : List (LC × LC)

/-- `UpsInfo::from_var_map`: pull each well-known key out of the variable map
into its named field; whatever is left becomes the sorted `extra` list. -/
def from_var_map (ups_name : LC) (vars : VarMap) : UpsInfo :=
  let status := findVal (lc "ups.status") vars
  let vars := removeKey (lc "ups.status") vars
  let model := findVal (lc "ups.model") vars
  let vars := removeKey (lc "ups.model") vars
  let manufacturer := findVal (lc "ups.mfr") vars
  let vars := removeKey (lc "ups.mfr") vars
  let serial := findVal (lc "ups.serial") vars
  let vars := removeKey (lc "ups.serial") vars
  let ups_type := findVal (lc "ups.type") vars
  let vars := removeKey (lc "ups.type") vars
  let load_percent := findVal (lc "ups.load") vars
  let vars := removeKey (lc "ups.load") vars
  let realpower_watts := findVal (lc "ups.realpower") vars
  let vars := removeKey (lc "ups.realpower") vars
  let battery_charge_percent := findVal (lc "battery.charge") vars
  let vars := removeKey (lc "battery.charge") vars
  let battery_runtime_seconds := findVal (lc "battery.runtime") vars
  let vars := removeKey (lc "battery.runtime") vars
  let battery_voltage := findVal (lc "battery.voltage") vars
  let vars := removeKey (lc "battery.voltage") vars
  let input_voltage := findVal (lc "input.voltage") vars
  let vars := removeKey (lc "input.voltage") vars
  let output_voltage := findVal (lc "output.voltage") vars
  let vars := removeKey (lc "output.voltage") vars
  let input_frequency_hz := findVal (lc "input.frequency") vars
  let vars := removeKey (lc "input.frequency") vars
  let output_frequency_hz := findVal (lc "output.frequency") vars
  let vars := removeKey (lc "output.frequency") vars
  { ups_name := ups_name
    status := status
    model := model
    manufacturer := manufacturer
    serial := serial
    ups_type := ups_type
    load_percent := load_percent
    realpower_watts := realpower_watts
    battery_charge_percent := battery_charge_percent
    battery_runtime_seconds := battery_runtime_seconds
    battery_voltage := battery_voltage
    input_voltage := input_voltage
    output_voltage := output_voltage
    input_frequency_hz := input_frequency_hz
    output_frequency_hz := output_frequency_hz
    extra := sortPairs vars }

/-- The fourteen well-known variable names of the `UpsInfo` projection, in the
order `from_var_map` removes them. -/
def wellKnownKeys : List LC :=
  [lc "ups.status", lc "ups.model", lc "ups.mfr", lc "ups.serial", lc "ups.type",
   lc "ups.load", lc "ups.realpower", lc "battery.charge", lc "battery.runtime",
   lc "battery.voltage", lc "input.voltage", lc "output.voltage",
   lc "input.frequency", lc "output.frequency"]

/-- Proof helper: remove a list of keys from the map in order; unfolds to the
nested `removeKey` applications produced by `from_var_map`'s sequential
`take` calls. -/
def removeKeys (ks : List LC) (m : VarMap) : VarMap :=
  match ks with
  | [] => m
  | k :: rest => removeKeys rest (removeKey k m)

/-- The C3 specification of `from_var_map`: every well-known key's value lands
in its named field (exactly the map lookup), and `extra` is precisely the
remaining entries — a permutation of the non-well-known entries, each
appearing exactly once, with no well-known key among them, sorted by key with
pairwise-distinct keys. -/
def FromVarMapSpec (name : LC) (vars : VarMap) : Prop :=
  (from_var_map name vars).status = findVal (lc "ups.status") vars
  ∧ (from_var_map name vars).model = findVal (lc "ups.model") vars
  ∧ (from_var_map name vars).manufacturer = findVal (lc "ups.mfr") vars
  ∧ (from_var_map name vars).serial = findVal (lc "ups.serial") vars
  ∧ (from_var_map name vars).ups_type = findVal (lc "ups.type") vars
  ∧ (from_var_map name vars).load_percent = findVal (lc "ups.load") vars
  ∧ (from_var_map name vars).realpower_watts = findVal (lc "ups.realpower") vars
  ∧ (from_var_map name vars).battery_charge_percent =
      findVal (lc "battery.charge") vars
  ∧ (from_var_map name vars).battery_runtime_seconds =
      findVal (lc "battery.runtime") vars
  ∧ (from_var_map name vars).battery_voltage = findVal (lc "battery.voltage") vars
  ∧ (from_var_map name vars).input_voltage = findVal (lc "input.voltage") vars
  ∧ (from_var_map name vars).output_voltage = findVal (lc "output.voltage") vars
  ∧ (from_var_map name vars).input_frequency_hz =
      findVal (lc "input.frequency") vars
  ∧ (from_var_map name vars).output_frequency_hz =
      findVal (lc "output.frequency") vars
  ∧ (from_var_map name vars).extra.Perm
      (vars.filter (fun p => !(decide (p.1 ∈ wellKnownKeys))))
  ∧ (∀ p ∈ (from_var_map name vars).extra, p.1 ∉ wellKnownKeys)
  ∧ (∀ p ∈ vars, p.1 ∉ wellKnownKeys →
      @List.count (LC × LC) instBEqOfDecidableEq p (from_var_map name vars).extra = 1)
  ∧ (from_var_map name vars).extra.Pairwise (fun p q => lcLe p.1 q.1 = true)
  ∧ ((from_var_map name vars).extra.map Prod.fst).Nodup

/-- The body loop of `NutClient::list_ups`: read lines until `END LIST UPS`,
collecting `(name, description)` from each `UPS ` body line; running out of
lines models `read_line` seeing a closed connection. -/
def listUpsLoop : List LC → List (LC × LC) → Except NutError (List (LC × LC))
  | [], _ => .error .connectionClosed
  | line :: rest, acc =>
    if (lc "END LIST UPS").isPrefixOf line then .ok acc
    else if (lc "UPS ").isPrefixOf line then
      match splitnChar 3 ' ' line with
      | [] => .error .missingUpsName
      | [_] => .error .missingUpsName
      | [_, _] => .error .missingUpsDesc
      | _ :: name :: descRaw :: _ =>
        listUpsLoop rest (acc ++ [(name, strip_quotes descRaw)])
    else listUpsLoop rest acc

/-- `NutClient::list_ups`, as a function of the response lines the server
sends back after `LIST UPS`. -/
def list_ups (lines : List LC) : Except NutError (List (LC × LC)) :=
  match lines with
  | [] => .error .connectionClosed
  | first :: rest =>
    if (lc "BEGIN LIST UPS").isPrefixOf first then listUpsLoop rest []
    else .error (.protocolViolation first)

/-- The body loop of `NutClient::list_vars_raw`: read lines until
`END LIST VAR`, inserting `varname ↦ value` from each `VAR ` body line whose
device field equals the requested UPS name. -/
def listVarsLoop (ups_name : LC) : List LC → VarMap → Except NutError VarMap
  | [], _ => .error .connectionClosed
  | line :: rest, acc =>
    if (lc "END LIST VAR").isPrefixOf line then .ok acc
    else if (lc "VAR ").isPrefixOf line then
      match splitnChar 4 ' ' line with
      | [] => .error .missingUpsName
      | [_] => .error .missingUpsName
      | _ :: ups :: tail =>
        if ups ≠ ups_name then listVarsLoop ups_name rest acc
        else
          match tail with
          | [] => .error .missingVarName
          | [_] => .error .missingVarValue
          | var_name :: value_raw :: _ =>
            listVarsLoop ups_name rest (hmInsert var_name (strip_quotes value_raw) acc)
    else listVarsLoop ups_name rest acc

/-- `NutClient::list_vars_raw`, as a function of the requested UPS name and
the response lines the server sends back after `LIST VAR <ups_name>`. -/
def list_vars_raw (ups_name : LC) (lines : List LC) : Except NutError VarMap :=
  match lines with
  | [] => .error .connectionClosed
  | first :: rest =>
    if (lc "BEGIN LIST VAR").isPrefixOf first then listVarsLoop ups_name rest []
    else .error (.protocolViolation first)


/-- `NutClient::expect_ok`: read one line; succeed exactly when it starts with
`OK`, returning the remaining lines of the response stream. -/
def expect_ok (lines : List LC) : Except NutError (List LC) :=
  match lines with
  | [] => .error .connectionClosed
  | line :: rest =>
    if (lc "OK").isPrefixOf line then .ok rest
    else .error (.expectedOkGot line)

/-- `NutClient::authenticate`: send `USERNAME <user>` and require `OK`; if the
password is non-empty also send `PASSWORD <pass>` and require `OK`.  Returns
the list of commands actually sent together with the outcome (the remaining
response lines on success). -/
def authenticate (username password : LC) (lines : List LC) :
    List LC × Except NutError (List LC) :=
  match expect_ok lines with
  | .error e => ([lc "USERNAME " ++ username], .error e)
  | .ok rest =>
    if password ≠ [] then
      match expect_ok rest with
      | .error e =>
        ([lc "USERNAME " ++ username, lc "PASSWORD " ++ password], .error e)
      | .ok rest2 =>
        ([lc "USERNAME " ++ username, lc "PASSWORD " ++ password], .ok rest2)
    else ([lc "USERNAME " ++ username], .ok rest)

/-- `NutClient::connect` after the TCP stream is established (the `tcp`
argument carries a possible OS-level connection failure): authenticate exactly
when the username is non-empty.  Returns the commands sent and the outcome. -/
def connect (tcp : Except NutError Unit) (username password : LC)
    (lines : List LC) : List LC × Except NutError Unit :=
  match tcp with
  | .error e => ([], .error e)
  | .ok _ =>
    if username ≠ [] then
      match authenticate username password lines with
      | (sent, .error e) => (sent, .error e)
      | (sent, .ok _) => (sent, .ok ())
    else ([], .ok ())

/-- One device-name-to-sorted-variable-list snapshot of the polling loop in
`src/nut/monitor.rs` (the payload of `Message::Info`). -/
abbrev Snapshot := List (LC × List (LC × LC))

/-- The events the polling loop's stream can deliver: a full snapshot
(`Message::Info`) or the terminal error (`Message::Error`). -/
inductive PollEvent
  | info (snapshot : Snapshot)
  | error (e : NutError)

/-- The body of one polling tick in `Monitor::new`: for each captured device
in order, fetch its variables (`query`), sort them, and insert them into the
snapshot under the device name; the first failure aborts the whole tick. -/
def pollTickGo (query : LC → Except NutError VarMap) :
    List (LC × LC) → Snapshot → Except NutError Snapshot
  | [], info => .ok info
  | (name, _desc) :: rest, info =>
    match query name with
    | .error e => .error e
    | .ok status => pollTickGo query rest (hmInsert name (sortPairs status) info)

/-- One polling tick over the captured device list, starting from an empty
snapshot. -/
def pollTick (devList : List (LC × LC)) (query : LC → Except NutError VarMap) :
    Except NutError Snapshot :=
  pollTickGo query devList []

/-- The polling loop of `Monitor::new`, observed for `fuel` ticks: each tick
queries every captured device via `list_vars_raw` (the server's response lines
for tick `i` and device `n` are `responses i n`), emits the assembled snapshot
as one event, and sleeps; the first error becomes one terminal error event and
stops the loop.  `fuel` only truncates the observation of the infinite loop. -/
def pollLoop : Nat → List (LC × LC) → (Nat → LC → List LC) → List PollEvent
  | 0, _, _ => []
  | fuel + 1, devList, responses =>
    match pollTick devList (fun n => list_vars_raw n (responses 0 n)) with
    | .error e => [.error e]
    | .ok info => .info info :: pollLoop fuel devList (fun j n => responses (j + 1) n)


theorem replaceFuel_nil (pat rep : LC) (fuel : Nat) :
    replaceFuel pat rep fuel [] = [] := by
  cases fuel <;> rfl

theorem escBody_quote (t : LC) : escBody ('"' :: t) = '\\' :: '"' :: escBody t := by
  simp [escBody]

theorem escBody_backslash (t : LC) :
    escBody ('\\' :: t) = '\\' :: '\\' :: escBody t := by
  simp [escBody]

theorem escBody_other (c : Char) (t : LC) (h1 : c ≠ '"') (h2 : c ≠ '\\') :
    escBody (c :: t) = c :: escBody t := by
  simp [escBody, h1, h2]

theorem halfDecode_backslash (t : LC) :
    halfDecode ('\\' :: t) = '\\' :: '\\' :: halfDecode t := by
  simp [halfDecode]

theorem halfDecode_other (c : Char) (t : LC) (h : c ≠ '\\') :
    halfDecode (c :: t) = c :: halfDecode t := by
  simp [halfDecode, h]

theorem rf1_match (fuel : Nat) (l : LC) :
    replaceFuel ['\\', '"'] ['"'] (fuel + 1) ('\\' :: '"' :: l) =
      '"' :: replaceFuel ['\\', '"'] ['"'] fuel l := by
  simp [replaceFuel, List.isPrefixOf]

theorem rf1_no_match_after_backslash (fuel : Nat) (c : Char) (l : LC)
    (h : c ≠ '"') :
    replaceFuel ['\\', '"'] ['"'] (fuel + 1) ('\\' :: c :: l) =
      '\\' :: replaceFuel ['\\', '"'] ['"'] fuel (c :: l) := by
  have hb : (('"' : Char) == c) = false := beq_eq_false_iff_ne.mpr (Ne.symm h)
  simp [replaceFuel, List.isPrefixOf, hb]

theorem rf1_single_backslash (fuel : Nat) :
    replaceFuel ['\\', '"'] ['"'] (fuel + 1) ['\\'] = ['\\'] := by
  simp [replaceFuel, List.isPrefixOf, replaceFuel_nil]

theorem rf1_other (fuel : Nat) (c : Char) (l : LC) (h : c ≠ '\\') :
    replaceFuel ['\\', '"'] ['"'] (fuel + 1) (c :: l) =
      c :: replaceFuel ['\\', '"'] ['"'] fuel l := by
  have hb : (('\\' : Char) == c) = false := beq_eq_false_iff_ne.mpr (Ne.symm h)
  simp [replaceFuel, List.isPrefixOf, hb]

theorem rf2_match (fuel : Nat) (l : LC) :
    replaceFuel ['\\', '\\'] ['\\'] (fuel + 1) ('\\' :: '\\' :: l) =
      '\\' :: replaceFuel ['\\', '\\'] ['\\'] fuel l := by
  simp [replaceFuel, List.isPrefixOf]

theorem rf2_other (fuel : Nat) (c : Char) (l : LC) (h : c ≠ '\\') :
    replaceFuel ['\\', '\\'] ['\\'] (fuel + 1) (c :: l) =
      c :: replaceFuel ['\\', '\\'] ['\\'] fuel l := by
  have hb : (('\\' : Char) == c) = false := beq_eq_false_iff_ne.mpr (Ne.symm h)
  simp [replaceFuel, List.isPrefixOf, hb]

/-- The first `replace` pass of `strip_quotes` rewrites an escaped body to its
half-decoded form (quotes decoded, backslashes still doubled), as long as the
fuel covers the list; the second conjunct strengthens the induction for a
leading stray backslash left by a decoded `\\` pair. -/
theorem replace_pass1 : ∀ fuel : Nat,
    (∀ s : LC, (escBody s).length ≤ fuel →
      replaceFuel ['\\', '"'] ['"'] fuel (escBody s) = halfDecode s)
  ∧ (∀ s : LC, (escBody s).length + 1 ≤ fuel →
      replaceFuel ['\\', '"'] ['"'] fuel ('\\' :: escBody s) =
        '\\' :: halfDecode s) := by
  intro fuel
  induction fuel with
  | zero =>
    constructor
    · intro s hs
      cases s with
      | nil => rfl
      | cons c t =>
        exfalso
        revert hs
        simp [escBody]
        split_ifs <;> simp
    · intro s hs
      exact absurd hs (by omega)
  | succ fuel ih =>
    obtain ⟨ihP, ihQ⟩ := ih
    constructor
    · intro s hs
      cases s with
      | nil => rfl
      | cons c t =>
        by_cases h1 : c = '"'
        · subst h1
          rw [escBody_quote] at hs ⊢
          simp only [List.length_cons] at hs
          rw [rf1_match, ihP t (by omega),
            halfDecode_other '"' t (by decide)]
        · by_cases h2 : c = '\\'
          · subst h2
            rw [escBody_backslash] at hs ⊢
            simp only [List.length_cons] at hs
            rw [rf1_no_match_after_backslash fuel '\\' _ (by decide),
              ihQ t (by omega), halfDecode_backslash]
          · rw [escBody_other c t h1 h2] at hs ⊢
            simp only [List.length_cons] at hs
            rw [rf1_other fuel c _ h2, ihP t (by omega),
              halfDecode_other c t h2]
    · intro s hs
      cases s with
      | nil => exact rf1_single_backslash fuel
      | cons c t =>
        by_cases h1 : c = '"'
        · subst h1
          rw [escBody_quote] at hs ⊢
          simp only [List.length_cons] at hs
          rw [rf1_no_match_after_backslash fuel '\\' _ (by decide),
            ← escBody_quote, ihP ('"' :: t) (by rw [escBody_quote]; simp; omega)]
        · by_cases h2 : c = '\\'
          · subst h2
            rw [escBody_backslash] at hs ⊢
            simp only [List.length_cons] at hs
            rw [rf1_no_match_after_backslash fuel '\\' _ (by decide),
              ← escBody_backslash,
              ihP ('\\' :: t) (by rw [escBody_backslash]; simp; omega)]
          · rw [escBody_other c t h1 h2] at hs ⊢
            simp only [List.length_cons] at hs
            rw [rf1_no_match_after_backslash fuel c _ h1,
              show (c :: escBody t) = escBody (c :: t) from
                (escBody_other c t h1 h2).symm,
              ihP (c :: t) (by rw [escBody_other c t h1 h2]; simp; omega)]

/-- The second `replace` pass of `strip_quotes` collapses the doubled
backslashes of a half-decoded body, recovering the original string. -/
theorem replace_pass2 : ∀ fuel : Nat, ∀ s : LC, (halfDecode s).length ≤ fuel →
    replaceFuel ['\\', '\\'] ['\\'] fuel (halfDecode s) = s := by
  intro fuel
  induction fuel with
  | zero =>
    intro s hs
    cases s with
    | nil => rfl
    | cons c t =>
      exfalso
      revert hs
      simp [halfDecode]
      split_ifs <;> simp
  | succ fuel ih =>
    intro s hs
    cases s with
    | nil => rfl
    | cons c t =>
      by_cases h : c = '\\'
      · subst h
        rw [halfDecode_backslash] at hs ⊢
        simp only [List.length_cons] at hs
        rw [rf2_match, ih t (by omega)]
      · rw [halfDecode_other c t h] at hs ⊢
        simp only [List.length_cons] at hs
        rw [rf2_other fuel c _ h, ih t (by omega)]

/-- C1: unescaping is a left inverse of the NUT value-escaping rule — for
every string `s`, `strip_quotes` applied to the escaped form (wrapped in
double quotes, embedded `"` and `\` escaped) reproduces `s` exactly, with the
`\"` pass performed before the `\\` pass. -/
theorem strip_quotes_escapeValue_roundtrip (s : LC) :
    strip_quotes (escapeValue s) = s := by
  have hcond : 2 ≤ (escapeValue s).length ∧
      (escapeValue s).head? = some '"' ∧ (escapeValue s).getLast? = some '"' := by
    refine ⟨?_, rfl, ?_⟩
    · simp [escapeValue]
    · show ('"' :: escBody s ++ ['"']).getLast? = some '"'
      rw [show '"' :: escBody s ++ ['"'] = ('"' :: escBody s) ++ ['"'] from rfl]
      exact List.getLast?_concat _
  have hinner : ((escapeValue s).drop 1).dropLast = escBody s := by
    show (escBody s ++ ['"']).dropLast = escBody s
    exact List.dropLast_concat
  simp only [strip_quotes, if_pos hcond, hinner]
  rw [show replaceList ['\\', '"'] ['"'] (escBody s) = halfDecode s from
    (replace_pass1 (escBody s).length).1 s le_rfl]
  exact replace_pass2 (halfDecode s).length s le_rfl

/-- A `USERNAME …` command is never equal to a `PASSWORD …` command: their
first characters differ. -/
theorem username_ne_password (u p : LC) :
    lc "USERNAME " ++ u ≠ lc "PASSWORD " ++ p := by
  intro h
  have h1 : (lc "USERNAME " ++ u).head? = some 'U' := rfl
  rw [h] at h1
  have h2 : (lc "PASSWORD " ++ p).head? = some 'P' := rfl
  rw [h2] at h1
  exact absurd h1 (by decide)

/-- If some device's query fails, the tick body aborts with an error, whatever
snapshot state has been accumulated so far. -/
theorem pollTickGo_error (query : LC → Except NutError VarMap) :
    ∀ (devList : List (LC × LC)) (acc : Snapshot),
    (∃ d ∈ devList, (query d.1).isOk = false) →
    ∃ e, pollTickGo query devList acc = .error e := by
  intro devList
  induction devList with
  | nil =>
    intro acc h
    obtain ⟨d, hd, _⟩ := h
    exact absurd hd (List.not_mem_nil d)
  | cons hd tl ih =>
    intro acc h
    obtain ⟨n, dsc⟩ := hd
    cases hq : query n with
    | error e => exact ⟨e, by simp [pollTickGo, hq]⟩
    | ok status =>
      obtain ⟨d, hd, hfail⟩ := h
      rcases List.mem_cons.mp hd with h1 | h1
      · exfalso
        rw [h1] at hfail
        rw [hq] at hfail
        simp [Except.isOk, Except.toBool] at hfail
      · have step : pollTickGo query ((n, dsc) :: tl) acc =
            pollTickGo query tl (hmInsert n (sortPairs status) acc) := by
          simp [pollTickGo, hq]
        obtain ⟨e, he⟩ := ih (hmInsert n (sortPairs status) acc) ⟨d, h1, hfail⟩
        exact ⟨e, step.trans he⟩

/-- C2: if at some tick `i` (all earlier ticks having succeeded) the
`list_vars_raw` call fails for any device of the captured list, then however
long the loop is observed it emits exactly the `i` earlier snapshots followed
by exactly one terminal error event: no snapshot is emitted for the failing
tick and the loop never continues past the error. -/
theorem pollLoop_error_terminates :
    ∀ (i fuel : Nat) (devList : List (LC × LC)) (responses : Nat → LC → List LC),
    (∀ j, j < i →
      (pollTick devList (fun n => list_vars_raw n (responses j n))).isOk = true) →
    (∃ d ∈ devList, (list_vars_raw d.1 (responses i d.1)).isOk = false) →
    i < fuel →
    ∃ e, pollLoop fuel devList responses =
          pollLoop i devList responses ++ [PollEvent.error e]
      ∧ (pollLoop i devList responses).length = i
      ∧ ∀ ev ∈ pollLoop i devList responses, ∃ s, ev = PollEvent.info s := by
  intro i
  induction i with
  | zero =>
    intro fuel devList responses _ h2 hfuel
    obtain ⟨e, he⟩ :=
      pollTickGo_error (fun n => list_vars_raw n (responses 0 n)) devList [] h2
    cases fuel with
    | zero => omega
    | succ fuel =>
      refine ⟨e, ?_, rfl, ?_⟩
      · have he' : pollTick devList (fun n => list_vars_raw n (responses 0 n)) =
            .error e := he
        simp [pollLoop, he']
      · intro ev hev
        exact absurd hev (List.not_mem_nil ev)
  | succ i ih =>
    intro fuel devList responses h1 h2 hfuel
    cases fuel with
    | zero => omega
    | succ fuel =>
      have h0 := h1 0 (Nat.succ_pos i)
      cases hq : pollTick devList (fun n => list_vars_raw n (responses 0 n)) with
      | error e =>
        rw [hq] at h0
        simp [Except.isOk, Except.toBool] at h0
      | ok s0 =>
        obtain ⟨e, heq, hlen, hinfo⟩ :=
          ih fuel devList (fun j n => responses (j + 1) n)
            (fun j hj => h1 (j + 1) (by omega)) h2 (by omega)
        refine ⟨e, ?_, ?_, ?_⟩
        · simp only [pollLoop, hq]
          rw [heq]
          simp
        · simp only [pollLoop, hq, List.length_cons, hlen]
        · intro ev hev
          simp only [pollLoop, hq, List.mem_cons] at hev
          rcases hev with h | h
          · exact ⟨s0, h⟩
          · exact hinfo ev h

/-- C2 witness: a single device whose `LIST VAR` response is the bad line
`ERR` makes the very first tick fail: the loop output is exactly one error. -/
theorem pollLoop_error_terminates_witness :
    ∃ e, pollLoop 1 [(lc "ups1", lc "d")] (fun _ _ => [lc "ERR"]) =
          pollLoop 0 [(lc "ups1", lc "d")] (fun _ _ => [lc "ERR"]) ++
            [PollEvent.error e]
      ∧ (pollLoop 0 [(lc "ups1", lc "d")] (fun _ _ => [lc "ERR"])).length = 0
      ∧ ∀ ev ∈ pollLoop 0 [(lc "ups1", lc "d")] (fun _ _ => [lc "ERR"]),
          ∃ s, ev = PollEvent.info s :=
  pollLoop_error_terminates 0 1 [(lc "ups1", lc "d")] (fun _ _ => [lc "ERR"])
    (fun _ hj => absurd hj (by omega))
    ⟨(lc "ups1", lc "d"), by decide, by decide⟩ (by decide)

/-- C7: a first response line that does not start with `BEGIN LIST UPS` makes
`list_ups` fail with a `protocolViolation` carrying that raw line and no
device records; likewise `list_vars_raw` requires a `BEGIN LIST VAR` prefix. -/
theorem begin_prefix_required :
    (∀ first rest, (lc "BEGIN LIST UPS").isPrefixOf first = false →
      list_ups (first :: rest) = .error (.protocolViolation first))
  ∧ (∀ ups_name first rest, (lc "BEGIN LIST VAR").isPrefixOf first = false →
      list_vars_raw ups_name (first :: rest) = .error (.protocolViolation first)) := by
  constructor
  · intro first rest h
    simp [list_ups, h]
  · intro ups_name first rest h
    simp [list_vars_raw, h]

/-- C7 witness: `ERR ACCESS-DENIED` as first line aborts both listings. -/
theorem begin_prefix_required_witness :
    (lc "BEGIN LIST UPS").isPrefixOf (lc "ERR ACCESS-DENIED") = false
  ∧ list_ups [lc "ERR ACCESS-DENIED"] =
      .error (.protocolViolation (lc "ERR ACCESS-DENIED"))
  ∧ list_vars_raw (lc "ups1") [lc "ERR ACCESS-DENIED"] =
      .error (.protocolViolation (lc "ERR ACCESS-DENIED")) :=
  ⟨by decide, begin_prefix_required.1 _ [] (by decide),
   begin_prefix_required.2 _ _ [] (by decide)⟩

/-- C9: an input that is not wrapped in double quotes (shorter than two
characters, or not starting with `"`, or not ending with `"`) is returned by
`strip_quotes` unchanged, so unquoted fields are taken verbatim. -/
theorem strip_quotes_id_of_not_wrapped (s : LC)
    (h : s.length < 2 ∨ s.head? ≠ some '"' ∨ s.getLast? ≠ some '"') :
    strip_quotes s = s := by
  have hneg : ¬(2 ≤ s.length ∧ s.head? = some '"' ∧ s.getLast? = some '"') := by
    rcases h with h | h | h
    · exact fun hc => absurd hc.1 (Nat.not_le.mpr h)
    · exact fun hc => h hc.2.1
    · exact fun hc => h hc.2.2
  simp only [strip_quotes]
  exact if_neg hneg

/-- C9 witness: the unquoted string `abc` passes through unchanged. -/
theorem strip_quotes_id_of_not_wrapped_witness :
    ((lc "abc").length < 2 ∨ (lc "abc").head? ≠ some '"' ∨
      (lc "abc").getLast? ≠ some '"')
  ∧ strip_quotes (lc "abc") = lc "abc" :=
  ⟨by decide, strip_quotes_id_of_not_wrapped _ (by decide)⟩

/-- C6: a `VAR` body line whose device field differs from the requested UPS
name is silently dropped: the loop state and result are exactly as if the
line were absent, so its variable and value appear nowhere and no error is
raised. -/
theorem list_vars_raw_drops_mismatched_device
    (ups_name line : LC) (rest : List LC) (acc : VarMap) (v dev : LC)
    (tail : List LC)
    (hvar : (lc "VAR ").isPrefixOf line = true)
    (hend : (lc "END LIST VAR").isPrefixOf line = false)
    (hsplit : splitnChar 4 ' ' line = v :: dev :: tail)
    (hne : dev ≠ ups_name) :
    listVarsLoop ups_name (line :: rest) acc = listVarsLoop ups_name rest acc := by
  simp [listVarsLoop, hvar, hend, hsplit, hne]

/-- C6 witness: a stray `VAR other.dev x "1"` among `ups1` results is dropped. -/
theorem list_vars_raw_drops_mismatched_device_witness :
    listVarsLoop (lc "ups1")
      [lc "VAR other.dev x \"1\"", lc "END LIST VAR ups1"] [] =
    listVarsLoop (lc "ups1") [lc "END LIST VAR ups1"] [] :=
  list_vars_raw_drops_mismatched_device (lc "ups1") _ _ [] (lc "VAR")
    (lc "other.dev") [lc "x", lc "\"1\""] (by decide) (by decide) (by decide)
    (by decide)

/-- C4: `list_ups` parses the two-device example to exactly
`[(ups1, Desc 1), (ups2, Desc 2)]`; in general a body line without the
`UPS ` prefix is ignored, and a `UPS <name> "<desc>"` body line appends
`(name, unquoted desc)` at the end of the accumulated result, preserving
server order with no reordering or deduplication. -/
theorem list_ups_parses_in_order :
    list_ups [lc "BEGIN LIST UPS", lc "UPS ups1 \"Desc 1\"",
        lc "UPS ups2 \"Desc 2\"", lc "END LIST UPS"] =
      .ok [(lc "ups1", lc "Desc 1"), (lc "ups2", lc "Desc 2")]
  ∧ (∀ line rest acc, (lc "UPS ").isPrefixOf line = false →
      (lc "END LIST UPS").isPrefixOf line = false →
      listUpsLoop (line :: rest) acc = listUpsLoop rest acc)
  ∧ (∀ line rest acc u name descRaw tail,
      (lc "UPS ").isPrefixOf line = true →
      (lc "END LIST UPS").isPrefixOf line = false →
      splitnChar 3 ' ' line = u :: name :: descRaw :: tail →
      listUpsLoop (line :: rest) acc =
        listUpsLoop rest (acc ++ [(name, strip_quotes descRaw)])) := by
  refine ⟨rfl, ?_, ?_⟩
  · intro line rest acc hups hend
    simp [listUpsLoop, hups, hend]
  · intro line rest acc u name descRaw tail hups hend hsplit
    simp [listUpsLoop, hups, hend, hsplit]

/-- C4 witness: a junk line is skipped and a `UPS ` line is appended in order. -/
theorem list_ups_parses_in_order_witness :
    listUpsLoop [lc "JUNK line", lc "END LIST UPS"] [] =
      listUpsLoop [lc "END LIST UPS"] []
  ∧ listUpsLoop [lc "UPS ups1 \"Desc 1\"", lc "END LIST UPS"] [] =
      listUpsLoop [lc "END LIST UPS"] [(lc "ups1", strip_quotes (lc "\"Desc 1\""))] :=
  ⟨list_ups_parses_in_order.2.1 (lc "JUNK line") _ [] (by decide) (by decide),
   by
    have h := list_ups_parses_in_order.2.2 (lc "UPS ups1 \"Desc 1\"")
      [lc "END LIST UPS"] [] (lc "UPS") (lc "ups1") (lc "\"Desc 1\"") []
      (by decide) (by decide) (by decide)
    simpa using h⟩

/-- C5: `list_vars_raw` parses the two-variable example to exactly the table
`ups.status ↦ OL, battery.charge ↦ 100`, and the `from_var_map` projection of
that table puts `OL` in `status`, `100` in `battery_charge_percent`, and
leaves `extra` empty. -/
theorem list_vars_raw_example_and_projection :
    list_vars_raw (lc "ups1") [lc "BEGIN LIST VAR ups1",
        lc "VAR ups1 ups.status \"OL\"", lc "VAR ups1 battery.charge \"100\"",
        lc "END LIST VAR ups1"] =
      .ok [(lc "ups.status", lc "OL"), (lc "battery.charge", lc "100")]
  ∧ (from_var_map (lc "ups1")
      [(lc "ups.status", lc "OL"), (lc "battery.charge", lc "100")]).status =
      some (lc "OL")
  ∧ (from_var_map (lc "ups1")
      [(lc "ups.status", lc "OL"), (lc "battery.charge", lc "100")]).battery_charge_percent =
      some (lc "100")
  ∧ (from_var_map (lc "ups1")
      [(lc "ups.status", lc "OL"), (lc "battery.charge", lc "100")]).extra = [] :=
  ⟨rfl, rfl, rfl, rfl⟩

/-- C10 (amended): a `UPS `-prefixed body line with fewer than three
space-separated parts aborts `list_ups` with an error; a `VAR `-prefixed line
whose device field equals the requested UPS name but which lacks a name or a
value field aborts `list_vars_raw` with an error; but a `VAR `-prefixed line
whose device field is absent or different from the requested name is silently
skipped, even when its name or value fields are missing. -/
theorem malformed_body_line_behavior :
    (∀ line rest acc u n, (lc "UPS ").isPrefixOf line = true →
      (lc "END LIST UPS").isPrefixOf line = false →
      splitnChar 3 ' ' line = [u, n] →
      listUpsLoop (line :: rest) acc = .error .missingUpsDesc)
  ∧ (∀ ups_name line rest acc v, (lc "VAR ").isPrefixOf line = true →
      (lc "END LIST VAR").isPrefixOf line = false →
      splitnChar 4 ' ' line = [v, ups_name] →
      listVarsLoop ups_name (line :: rest) acc = .error .missingVarName)
  ∧ (∀ ups_name line rest acc v n, (lc "VAR ").isPrefixOf line = true →
      (lc "END LIST VAR").isPrefixOf line = false →
      splitnChar 4 ' ' line = [v, ups_name, n] →
      listVarsLoop ups_name (line :: rest) acc = .error .missingVarValue)
  ∧ (∀ ups_name line rest acc v dev tail, (lc "VAR ").isPrefixOf line = true →
      (lc "END LIST VAR").isPrefixOf line = false →
      splitnChar 4 ' ' line = v :: dev :: tail → dev ≠ ups_name →
      listVarsLoop ups_name (line :: rest) acc = listVarsLoop ups_name rest acc) := by
  refine ⟨?_, ?_, ?_, ?_⟩
  · intro line rest acc u n hups hend hsplit
    simp [listUpsLoop, hups, hend, hsplit]
  · intro ups_name line rest acc v hvar hend hsplit
    simp [listVarsLoop, hvar, hend, hsplit]
  · intro ups_name line rest acc v n hvar hend hsplit
    simp [listVarsLoop, hvar, hend, hsplit]
  · intro ups_name line rest acc v dev tail hvar hend hsplit hne
    simp [listVarsLoop, hvar, hend, hsplit, hne]

/-- C10 counterexample: the claim says a `VAR `-prefixed line with a missing
name field makes `list_vars_raw` fail, but `VAR other` (device field present
but mismatched, name and value fields missing) is skipped and the listing
succeeds. -/
theorem malformed_var_line_no_error_cex :
    list_vars_raw (lc "ups1") [lc "BEGIN LIST VAR ups1", lc "VAR other",
      lc "END LIST VAR ups1"] = .ok [] := rfl

/-- C10 witness: concrete malformed lines for each case of the amended claim. -/
theorem malformed_body_line_behavior_witness :
    listUpsLoop [lc "UPS foo"] [] = .error .missingUpsDesc
  ∧ listVarsLoop (lc "ups1") [lc "VAR ups1"] [] = .error .missingVarName
  ∧ listVarsLoop (lc "ups1") [lc "VAR ups1 x"] [] = .error .missingVarValue
  ∧ listVarsLoop (lc "ups1") [lc "VAR other", lc "END LIST VAR ups1"] [] =
      listVarsLoop (lc "ups1") [lc "END LIST VAR ups1"] [] :=
  ⟨malformed_body_line_behavior.1 (lc "UPS foo") [] [] (lc "UPS") (lc "foo")
     (by decide) (by decide) (by decide),
   malformed_body_line_behavior.2.1 (lc "ups1") (lc "VAR ups1") [] [] (lc "VAR")
     (by decide) (by decide) (by decide),
   malformed_body_line_behavior.2.2.1 (lc "ups1") (lc "VAR ups1 x") [] []
     (lc "VAR") (lc "x") (by decide) (by decide) (by decide),
   malformed_body_line_behavior.2.2.2 (lc "ups1") (lc "VAR other")
     [lc "END LIST VAR ups1"] [] (lc "VAR") (lc "other") []
     (by decide) (by decide) (by decide) (by decide)⟩

/-- C8: with an established TCP stream, an empty username skips the
USERNAME/PASSWORD handshake entirely; a non-empty username always sends
`USERNAME <user>`; provided the username acknowledgement succeeds, a
`PASSWORD <pass>` command is sent iff the password is non-empty; and any
failed acknowledgement aborts the connect with that error. -/
theorem connect_auth_handshake :
    (∀ password lines, connect (.ok ()) [] password lines = ([], .ok ()))
  ∧ (∀ username password lines, username ≠ [] →
      lc "USERNAME " ++ username ∈ (connect (.ok ()) username password lines).1)
  ∧ (∀ username password lines, username ≠ [] → (expect_ok lines).isOk = true →
      ((lc "PASSWORD " ++ password ∈ (connect (.ok ()) username password lines).1) ↔
        password ≠ []))
  ∧ (∀ username password lines e, username ≠ [] → expect_ok lines = .error e →
      connect (.ok ()) username password lines =
        ([lc "USERNAME " ++ username], .error e))
  ∧ (∀ username password lines rest e, username ≠ [] →
      expect_ok lines = .ok rest → password ≠ [] → expect_ok rest = .error e →
      connect (.ok ()) username password lines =
        ([lc "USERNAME " ++ username, lc "PASSWORD " ++ password], .error e)) := by
  refine ⟨?_, ?_, ?_, ?_, ?_⟩
  · intro password lines
    simp [connect]
  · intro username password lines hu
    cases h' : expect_ok lines with
    | error e => simp [connect, authenticate, hu, h']
    | ok rest =>
      by_cases hp : password = []
      · simp [connect, authenticate, hu, h', hp]
      · cases h'' : expect_ok rest <;>
          simp [connect, authenticate, hu, h', hp, h'']
  · intro username password lines hu hok
    cases h' : expect_ok lines with
    | error e =>
      rw [h'] at hok
      exact absurd hok (by simp [Except.isOk, Except.toBool])
    | ok rest =>
      by_cases hp : password = []
      · subst hp
        have hne : lc "PASSWORD " ≠ lc "USERNAME " ++ username := by
          simpa using (username_ne_password username []).symm
        simp [connect, authenticate, hu, h', hne]
      · cases h'' : expect_ok rest <;>
          simp [connect, authenticate, hu, h', hp, h'']
  · intro username password lines e hu h'
    simp [connect, authenticate, hu, h']
  · intro username password lines rest e hu h' hp h''
    simp [connect, authenticate, hu, h', hp, h'']

/-- C8 witness: concrete sessions exercising each handshake case. -/
theorem connect_auth_handshake_witness :
    connect (.ok ()) [] (lc "p") [lc "OK"] = ([], .ok ())
  ∧ lc "USERNAME " ++ lc "u" ∈
      (connect (.ok ()) (lc "u") (lc "p") [lc "OK", lc "OK"]).1
  ∧ ((lc "PASSWORD " ++ lc "p" ∈
      (connect (.ok ()) (lc "u") (lc "p") [lc "OK", lc "OK"]).1) ↔ lc "p" ≠ [])
  ∧ connect (.ok ()) (lc "u") (lc "p") [lc "ERR"] =
      ([lc "USERNAME " ++ lc "u"], .error (.expectedOkGot (lc "ERR")))
  ∧ connect (.ok ()) (lc "u") (lc "p") [lc "OK", lc "ERR"] =
      ([lc "USERNAME " ++ lc "u", lc "PASSWORD " ++ lc "p"],
        .error (.expectedOkGot (lc "ERR"))) :=
  ⟨connect_auth_handshake.1 (lc "p") [lc "OK"],
   connect_auth_handshake.2.1 _ (lc "p") [lc "OK", lc "OK"] (by decide),
   connect_auth_handshake.2.2.1 _ _ [lc "OK", lc "OK"] (by decide) (by decide),
   connect_auth_handshake.2.2.2.1 _ (lc "p") _ _ (by decide) rfl,
   connect_auth_handshake.2.2.2.2 _ _ _ [lc "ERR"] _ (by decide) rfl
     (by decide) rfl⟩

theorem lcLe_refl (a : LC) : lcLe a a = true := by
  induction a with
  | nil => rfl
  | cons c t ih => simp [lcLe, lt_self_iff_false, ih]

theorem lcLe_total : ∀ a b : LC, lcLe a b = true ∨ lcLe b a = true := by
  intro a
  induction a with
  | nil => intro b; left; rfl
  | cons c t ih =>
    intro b
    cases b with
    | nil => right; rfl
    | cons d u =>
      rcases lt_trichotomy c d with h | h | h
      · left; simp [lcLe, h]
      · subst h
        rcases ih u with h' | h'
        · left; simp [lcLe, lt_self_iff_false, h']
        · right; simp [lcLe, lt_self_iff_false, h']
      · right; simp [lcLe, h]

theorem lcLe_trans : ∀ a b c : LC,
    lcLe a b = true → lcLe b c = true → lcLe a c = true := by
  intro a
  induction a with
  | nil => intro b c _ _; rfl
  | cons x xs ih =>
    intro b c hab hbc
    cases b with
    | nil => simp [lcLe] at hab
    | cons y ys =>
      cases c with
      | nil => simp [lcLe] at hbc
      | cons z zs =>
        rcases lt_trichotomy x y with h1 | h1 | h1
        · rcases lt_trichotomy y z with h2 | h2 | h2
          · simp [lcLe, h1.trans h2]
          · subst h2; simp [lcLe, h1]
          · exfalso; simp [lcLe, lt_asymm h2, h2] at hbc
        · subst h1
          simp [lcLe, lt_self_iff_false] at hab
          rcases lt_trichotomy x z with h2 | h2 | h2
          · simp [lcLe, h2]
          · subst h2
            simp [lcLe, lt_self_iff_false] at hbc ⊢
            exact ih ys zs hab hbc
          · exfalso; simp [lcLe, lt_asymm h2, h2] at hbc
        · exfalso; simp [lcLe, lt_asymm h1, h1] at hab

theorem lcLe_antisymm : ∀ a b : LC,
    lcLe a b = true → lcLe b a = true → a = b := by
  intro a
  induction a with
  | nil =>
    intro b _ hba
    cases b with
    | nil => rfl
    | cons d u => simp [lcLe] at hba
  | cons x xs ih =>
    intro b hab hba
    cases b with
    | nil => simp [lcLe] at hab
    | cons y ys =>
      rcases lt_trichotomy x y with h1 | h1 | h1
      · exfalso; simp [lcLe, lt_asymm h1, h1] at hba
      · subst h1
        simp [lcLe, lt_self_iff_false] at hab hba
        rw [ih ys hab hba]
      · exfalso; simp [lcLe, lt_asymm h1, h1] at hab

theorem pairLe_total : ∀ p q : LC × LC, pairLe p q = true ∨ pairLe q p = true := by
  intro p q
  by_cases h : p.1 = q.1
  · rcases lcLe_total p.2 q.2 with h' | h'
    · left; simp [pairLe, h, h']
    · right; simp [pairLe, h.symm, h']
  · rcases lcLe_total p.1 q.1 with h' | h'
    · left; simp [pairLe, h, h']
    · right; simp [pairLe, Ne.symm h, h']

theorem pairLe_trans : ∀ p q r : LC × LC,
    pairLe p q = true → pairLe q r = true → pairLe p r = true := by
  intro p q r hpq hqr
  by_cases h1 : p.1 = q.1 <;> by_cases h2 : q.1 = r.1
  · simp [pairLe, h1, h2] at hpq hqr ⊢
    exact lcLe_trans _ _ _ hpq hqr
  · have h3 : p.1 ≠ r.1 := fun hh => h2 (h1.symm.trans hh)
    simp [pairLe, h1, h2, h3] at hpq hqr ⊢
    exact hqr
  · have h3 : p.1 ≠ r.1 := fun hh => h1 (hh.trans h2.symm)
    simp [pairLe, h1, h2, h3] at hpq hqr ⊢
    exact hpq
  · by_cases h3 : p.1 = r.1
    · exfalso
      simp [pairLe, h1, h2] at hpq hqr
      rw [← h3] at hqr
      exact h1 (lcLe_antisymm _ _ hpq hqr)
    · simp [pairLe, h1, h2, h3] at hpq hqr ⊢
      exact lcLe_trans _ _ _ hpq hqr

theorem pairLe_imp_keyLe (p q : LC × LC) (h : pairLe p q = true) :
    lcLe p.1 q.1 = true := by
  by_cases hk : p.1 = q.1
  · rw [hk]; exact lcLe_refl q.1
  · simp only [pairLe, if_neg hk] at h; exact h

theorem removeKeys_filter : ∀ (ks : List LC) (m : VarMap),
    removeKeys ks m = m.filter (fun p => !(decide (p.1 ∈ ks))) := by
  intro ks
  induction ks with
  | nil => intro m; simp [removeKeys]
  | cons k rest ih =>
    intro m
    rw [show removeKeys (k :: rest) m = removeKeys rest (removeKey k m) from rfl,
      ih, show removeKey k m = m.filter (fun p => !(p.1 == k)) from rfl,
      List.filter_filter]
    exact List.filter_congr (fun p _ => by
      by_cases hk : p.1 = k <;> by_cases hr : p.1 ∈ rest <;> simp [hk, hr])

theorem findVal_filter (k : LC) (pred : LC × LC → Bool) :
    ∀ m : VarMap, (∀ v, pred (k, v) = true) →
      findVal k (m.filter pred) = findVal k m := by
  intro m h
  induction m with
  | nil => rfl
  | cons p rest ih =>
    obtain ⟨k', v⟩ := p
    by_cases hk : k' = k
    · subst hk
      simp [List.filter_cons, h v, findVal]
    · cases hp : pred (k', v) with
      | true => simp [List.filter_cons, hp, findVal, hk, ih]
      | false => simp [List.filter_cons, hp, findVal, hk, ih]

theorem findVal_removeKeys (ks : List LC) (k : LC) (m : VarMap) (h : k ∉ ks) :
    findVal k (removeKeys ks m) = findVal k m := by
  rw [removeKeys_filter]
  exact findVal_filter k _ m (fun v => by simp [h])

/-- C3: for any variable table with unique keys, `from_var_map` loses no key
and duplicates none — each of the fourteen well-known keys is moved to its
named field (the field equals the table lookup), and `extra` is exactly the
remaining entries, each exactly once, none well-known, sorted by key. -/
theorem from_var_map_partitions (name : LC) (vars : VarMap)
    (h : (vars.map Prod.fst).Nodup) : FromVarMapSpec name vars := by
  have hperm : (from_var_map name vars).extra.Perm
      (vars.filter (fun p => !(decide (p.1 ∈ wellKnownKeys)))) := by
    have h1 : (sortPairs (removeKeys wellKnownKeys vars)).Perm
        (removeKeys wellKnownKeys vars) := List.perm_insertionSort _ _
    have h2 : removeKeys wellKnownKeys vars =
        vars.filter (fun p => !(decide (p.1 ∈ wellKnownKeys))) :=
      removeKeys_filter _ _
    exact List.Perm.trans h1 (by rw [h2])
  refine ⟨rfl, ?_, ?_, ?_, ?_, ?_, ?_, ?_, ?_, ?_, ?_, ?_, ?_, ?_,
    hperm, ?_, ?_, ?_, ?_⟩
  · exact findVal_removeKeys (wellKnownKeys.take 1) (lc "ups.model") vars (by decide)
  · exact findVal_removeKeys (wellKnownKeys.take 2) (lc "ups.mfr") vars (by decide)
  · exact findVal_removeKeys (wellKnownKeys.take 3) (lc "ups.serial") vars (by decide)
  · exact findVal_removeKeys (wellKnownKeys.take 4) (lc "ups.type") vars (by decide)
  · exact findVal_removeKeys (wellKnownKeys.take 5) (lc "ups.load") vars (by decide)
  · exact findVal_removeKeys (wellKnownKeys.take 6) (lc "ups.realpower") vars
      (by decide)
  · exact findVal_removeKeys (wellKnownKeys.take 7) (lc "battery.charge") vars
      (by decide)
  · exact findVal_removeKeys (wellKnownKeys.take 8) (lc "battery.runtime") vars
      (by decide)
  · exact findVal_removeKeys (wellKnownKeys.take 9) (lc "battery.voltage") vars
      (by decide)
  · exact findVal_removeKeys (wellKnownKeys.take 10) (lc "input.voltage") vars
      (by decide)
  · exact findVal_removeKeys (wellKnownKeys.take 11) (lc "output.voltage") vars
      (by decide)
  · exact findVal_removeKeys (wellKnownKeys.take 12) (lc "input.frequency") vars
      (by decide)
  · exact findVal_removeKeys (wellKnownKeys.take 13) (lc "output.frequency") vars
      (by decide)
  · intro p hp
    have hmem := hperm.mem_iff.mp hp
    have h2 := List.mem_filter.mp hmem
    simpa using h2.2
  · intro p hp hwk
    rw [hperm.count_eq p]
    exact List.count_eq_one_of_mem ((List.Nodup.of_map Prod.fst h).filter _)
      (List.mem_filter.mpr ⟨hp, by simpa using hwk⟩)
  · have hs : List.Sorted (fun p q : LC × LC => pairLe p q = true)
        (sortPairs (removeKeys wellKnownKeys vars)) :=
      @List.sorted_insertionSort _ _ _ ⟨pairLe_total⟩ ⟨pairLe_trans⟩ _
    exact List.Pairwise.imp (fun hab => pairLe_imp_keyLe _ _ hab) hs
  · have h1 : ((vars.filter
        (fun p => !(decide (p.1 ∈ wellKnownKeys)))).map Prod.fst).Nodup :=
      ((List.filter_sublist vars).map Prod.fst).nodup h
    exact ((hperm.map Prod.fst).nodup_iff).mpr h1

/-- C3 witness: a concrete table with one well-known and two extra keys. -/
theorem from_var_map_partitions_witness :
    FromVarMapSpec (lc "ups1")
      [(lc "ups.status", lc "OL"), (lc "ambient.temperature", lc "21"),
       (lc "ambient.humidity", lc "40")] :=
  from_var_map_partitions (lc "ups1")
    [(lc "ups.status", lc "OL"), (lc "ambient.temperature", lc "21"),
     (lc "ambient.humidity", lc "40")] (by decide)
